import Mathlib

/-!
Verification of the MBTA Rider Satisfaction Score (RSS) indicator engine.

The source program is a pandas/streamlit pipeline.  Numeric columns are
modelled as exact rationals (`ℚ`); tables are lists of records; pandas
`groupby` is modelled by filtering on a key; pandas NaN produced by
`errors=coerce` conversions is modelled with `Option ℚ`.  Where a claim is
specifically about IEEE division-by-zero sentinels, an extended value type
`PVal` (finite / +inf / -inf / NaN) models float division.
-/

/-- Mean of a list of rationals, as pandas `mean` (sum divided by count;
division by zero yields 0 only on the empty list, which callers exclude). -/
def meanQ (xs : List ℚ) : ℚ := xs.sum / xs.length

/-- Insertion of an element into a sorted list (ascending). -/
def insertAsc (x : ℚ) : List ℚ → List ℚ
  | [] => [x]
  | y :: ys => if x ≤ y then x :: y :: ys else y :: insertAsc x ys

/-- Insertion sort, ascending, used to model the sorting step inside
pandas quantile computation. -/
def sortAsc (xs : List ℚ) : List ℚ := xs.foldr insertAsc []

/-- Quantile with linear interpolation, the default method of
`Series.quantile` / `numpy.percentile`: on the ascending sort `s` of the
data, with `h = q * (n - 1)`, the result interpolates between `s[⌊h⌋]`
and `s[⌊h⌋ + 1]`. -/
def quantileQ (q : ℚ) (xs : List ℚ) : ℚ :=
  let s := sortAsc xs
  let n := s.length
  let h : ℚ := q * ((n : ℚ) - 1)
  let f : ℕ := (⌊h⌋).toNat
  let lo := s.getD f 0
  let hi := s.getD (f + 1) lo
  lo + (h - (f : ℚ)) * (hi - lo)

/-- Minimum of a nonempty list (0 on the empty list, which callers exclude). -/
def listMin : List ℚ → ℚ
  | [] => 0
  | x :: xs => xs.foldl min x

/-- Maximum of a nonempty list (0 on the empty list, which callers exclude). -/
def listMax : List ℚ → ℚ
  | [] => 0
  | x :: xs => xs.foldl max x

theorem foldl_min_le_init (xs : List ℚ) : ∀ a : ℚ, xs.foldl min a ≤ a := by
  induction xs with
  | nil => intro a; simp
  | cons y ys ih =>
    intro a
    calc (y :: ys).foldl min a = ys.foldl min (min a y) := rfl
    _ ≤ min a y := ih (min a y)
    _ ≤ a := min_le_left a y

theorem foldl_min_le_mem (xs : List ℚ) :
    ∀ a y : ℚ, y ∈ xs → xs.foldl min a ≤ y := by
  induction xs with
  | nil => intro a y hy; cases hy
  | cons z zs ih =>
    intro a y hy
    rcases List.mem_cons.mp hy with h | h
    · subst h
      calc (y :: zs).foldl min a = zs.foldl min (min a y) := rfl
      _ ≤ min a y := foldl_min_le_init zs (min a y)
      _ ≤ y := min_le_right a y
    · exact ih (min a z) y h

theorem listMin_le {xs : List ℚ} {y : ℚ} (hy : y ∈ xs) : listMin xs ≤ y := by
  cases xs with
  | nil => cases hy
  | cons x l =>
    rcases List.mem_cons.mp hy with h | h
    · subst h; exact foldl_min_le_init l y
    · exact foldl_min_le_mem l x y h

theorem init_le_foldl_max (xs : List ℚ) : ∀ a : ℚ, a ≤ xs.foldl max a := by
  induction xs with
  | nil => intro a; simp
  | cons y ys ih =>
    intro a
    calc a ≤ max a y := le_max_left a y
    _ ≤ ys.foldl max (max a y) := ih (max a y)
    _ = (y :: ys).foldl max a := rfl

theorem mem_le_foldl_max (xs : List ℚ) :
    ∀ a y : ℚ, y ∈ xs → y ≤ xs.foldl max a := by
  induction xs with
  | nil => intro a y hy; cases hy
  | cons z zs ih =>
    intro a y hy
    rcases List.mem_cons.mp hy with h | h
    · subst h
      calc y ≤ max a y := le_max_right a y
      _ ≤ zs.foldl max (max a y) := init_le_foldl_max zs (max a y)
      _ = (y :: zs).foldl max a := rfl
    · exact ih (max a z) y h

theorem le_listMax {xs : List ℚ} {y : ℚ} (hy : y ∈ xs) : y ≤ listMax xs := by
  cases xs with
  | nil => cases hy
  | cons x l =>
    rcases List.mem_cons.mp hy with h | h
    · subst h; exact init_le_foldl_max l y
    · exact mem_le_foldl_max l x y h

/-- Sum of a list mapped through division by a constant equals the sum
divided by the constant. -/
theorem sum_map_div (l : List α) (f : α → ℚ) (c : ℚ) :
    (l.map (fun x => f x / c)).sum = (l.map f).sum / c := by
  induction l with
  | nil => simp
  | cons x xs ih => simp [ih, add_div]

/-!
## RSS Composer scaling (spec-modelled)

The RSS Composer that produces `RSS_scaled` is not among the repository
files here (only its output tables `rss_final_results.csv` and
`station_rss_scores.csv` are read by the dashboard, and `app.py`
documents the formula).  It is therefore modelled from the spec.
-/

/-- Modelled from the spec: the RSS Composer rescaling step, which is
missing from the available sources.  "RSS_scaled = 60 + 40 * (RSS_raw −
min(RSS_raw in cohort)) / (max(RSS_raw in cohort) − min(RSS_raw in
cohort)); if max=min ... RSS_scaled must be defined as a constant (policy
choice — e.g. 80, the midpoint)". -/
def rssScale (cohort : List ℚ) (x : ℚ) : ℚ :=
  if listMax cohort = listMin cohort then 80
  else 60 + 40 * (x - listMin cohort) / (listMax cohort - listMin cohort)

theorem listMin_lt_listMax {cohort : List ℚ} {a b : ℚ}
    (ha : a ∈ cohort) (hb : b ∈ cohort) (hab : a ≠ b) :
    listMin cohort < listMax cohort := by
  rcases lt_or_gt_of_ne hab with h | h
  · exact lt_of_le_of_lt (listMin_le ha) (lt_of_lt_of_le h (le_listMax hb))
  · exact lt_of_le_of_lt (listMin_le hb) (lt_of_lt_of_le h (le_listMax ha))

/-- C1: in a cohort with at least two distinct RSS_raw values, the scaled
score is `60 + 40·(x − min)/(max − min)`, lies in [60,100], sends the
cohort minimum to exactly 60 and the maximum to exactly 100, strictly
preserves rank order, and on the spec's example cohort [−1, 0, 2] yields
[60, 220/3, 100] (220/3 prints as 73.3 at one decimal: ⌊220/3·10 + 1/2⌋ =
733). -/
theorem c1_rss_scaled_bounds_and_order :
    (∀ (cohort : List ℚ) (a b : ℚ), a ∈ cohort → b ∈ cohort → a ≠ b →
      (∀ x ∈ cohort,
        rssScale cohort x =
          60 + 40 * (x - listMin cohort) / (listMax cohort - listMin cohort) ∧
        60 ≤ rssScale cohort x ∧ rssScale cohort x ≤ 100) ∧
      rssScale cohort (listMin cohort) = 60 ∧
      rssScale cohort (listMax cohort) = 100 ∧
      (∀ x ∈ cohort, ∀ y ∈ cohort, x < y →
        rssScale cohort x < rssScale cohort y)) ∧
    ([(-1 : ℚ), 0, 2].map (rssScale [(-1 : ℚ), 0, 2]) = [60, 220/3, 100] ∧
      Rat.floor ((220 : ℚ)/3 * 10 + 1/2) = 733) := by
  constructor
  · intro cohort a b ha hb hab
    have hlt : listMin cohort < listMax cohort := listMin_lt_listMax ha hb hab
    have hne : ¬ (listMax cohort = listMin cohort) := by
      intro h; rw [h] at hlt; exact lt_irrefl _ hlt
    have hd : (0:ℚ) < listMax cohort - listMin cohort := sub_pos.mpr hlt
    have hform : ∀ x : ℚ, rssScale cohort x =
        60 + 40 * (x - listMin cohort) / (listMax cohort - listMin cohort) := by
      intro x; simp only [rssScale, if_neg hne]
    refine ⟨?_, ?_, ?_, ?_⟩
    · intro x hx
      refine ⟨hform x, ?_, ?_⟩
      · rw [hform x]
        have h1 : (0:ℚ) ≤ (x - listMin cohort) / (listMax cohort - listMin cohort) :=
          div_nonneg (by linarith [listMin_le hx]) (le_of_lt hd)
        rw [mul_div_assoc]
        linarith
      · rw [hform x]
        have h1 : (x - listMin cohort) / (listMax cohort - listMin cohort) ≤ 1 :=
          (div_le_one hd).mpr (by linarith [le_listMax hx])
        have h2 : (40:ℚ) * ((x - listMin cohort) / (listMax cohort - listMin cohort)) ≤ 40 * 1 :=
          mul_le_mul_of_nonneg_left h1 (by norm_num)
        rw [mul_div_assoc]
        linarith
    · rw [hform]; simp
    · rw [hform]
      rw [mul_div_assoc, div_self (ne_of_gt hd)]
      norm_num
    · intro x _ y _ hxy
      rw [hform x, hform y]
      have h1 : (x - listMin cohort) / (listMax cohort - listMin cohort) <
          (y - listMin cohort) / (listMax cohort - listMin cohort) := by
        gcongr
      have h2 : (40:ℚ) * ((x - listMin cohort) / (listMax cohort - listMin cohort)) <
          40 * ((y - listMin cohort) / (listMax cohort - listMin cohort)) :=
        mul_lt_mul_of_pos_left h1 (by norm_num)
      rw [mul_div_assoc, mul_div_assoc]
      linarith
  · constructor
    · have hmin : listMin [(-1 : ℚ), 0, 2] = -1 := by
        simp [listMin, min_def]
        norm_num
      have hmax : listMax [(-1 : ℚ), 0, 2] = 2 := by
        simp [listMax, max_def]
      simp [rssScale, hmin, hmax]
      norm_num
    · norm_num [Rat.floor]

/-- Witness for C1 at the concrete cohort [−1, 0, 2]. -/
theorem c1_rss_scaled_bounds_and_order_witness :
    60 ≤ rssScale [(-1 : ℚ), 0, 2] 0 ∧ rssScale [(-1 : ℚ), 0, 2] 0 ≤ 100 ∧
    rssScale [(-1 : ℚ), 0, 2] (listMin [(-1 : ℚ), 0, 2]) = 60 ∧
    rssScale [(-1 : ℚ), 0, 2] (listMax [(-1 : ℚ), 0, 2]) = 100 := by
  have h := c1_rss_scaled_bounds_and_order.1 [(-1 : ℚ), 0, 2] (-1) 0
    (List.mem_cons_self _ _) (by decide) (by decide)
  exact ⟨(h.1 0 (by decide)).2.1, (h.1 0 (by decide)).2.2, h.2.1, h.2.2.1⟩

/-!
## Ridership Exposure Builder
(`src/data_exploration/02_calculate_indicators.py`, section 5)

`ridership.groupby(['route_id', 'time_period_name']).agg({'total_ons':
'sum', 'total_offs': 'sum', 'number_service_days': 'first'})`, then
`avg_daily_ridership = (total_ons + total_offs) / 2 / number_service_days`
and `exposure_weight = avg_daily_ridership / total_system_ridership`.
-/

/-- Row of the consolidated ridership table, the columns used by
section 5 of `02_calculate_indicators.py`. -/
structure RidershipRecord where
  route_id : String
  time_period_name : String
  stop_name : String
  total_ons : ℚ
  total_offs : ℚ
  number_service_days : ℚ
deriving DecidableEq

/-- Group key of `ridership.groupby(['route_id', 'time_period_name'])`. -/
def ridershipKey (r : RidershipRecord) : String × String :=
  (r.route_id, r.time_period_name)

/-- Distinct group keys of the ridership batch (one output row each). -/
def ridershipKeys (rows : List RidershipRecord) : List (String × String) :=
  (rows.map ridershipKey).dedup

/-- Rows of one (route_id, time_period_name) group, in table order. -/
def ridershipGroup (rows : List RidershipRecord) (k : String × String) :
    List RidershipRecord :=
  rows.filter (fun r => decide (ridershipKey r = k))

/-- Aggregation `'number_service_days': 'first'` — the first value of the
group in table order. -/
def firstServiceDays (rows : List RidershipRecord) (k : String × String) : ℚ :=
  match ridershipGroup rows k with
  | [] => 0
  | r :: _ => r.number_service_days

/-- `avg_daily_ridership = ((Σ total_ons) + (Σ total_offs)) / 2 /
number_service_days` for one group. -/
def avgDailyRidership (rows : List RidershipRecord) (k : String × String) : ℚ :=
  (((ridershipGroup rows k).map RidershipRecord.total_ons).sum +
    ((ridershipGroup rows k).map RidershipRecord.total_offs).sum) / 2 /
    firstServiceDays rows k

/-- `total_system_ridership = ridership_weights['avg_daily_ridership'].sum()`. -/
def totalSystemRidership (rows : List RidershipRecord) : ℚ :=
  ((ridershipKeys rows).map (avgDailyRidership rows)).sum

/-- `exposure_weight = avg_daily_ridership / total_system_ridership`. -/
def exposureWeight (rows : List RidershipRecord) (k : String × String) : ℚ :=
  avgDailyRidership rows k / totalSystemRidership rows

/-- C2: over a ridership batch whose grand total of avg_daily_ridership is
positive, the exposure weights of all route/time-period groups sum to
exactly 1, hence to 1.0 within 1e-9. -/
theorem c2_exposure_weights_sum_to_one (rows : List RidershipRecord)
    (hpos : 0 < totalSystemRidership rows) :
    ((ridershipKeys rows).map (exposureWeight rows)).sum = 1 ∧
    |((ridershipKeys rows).map (exposureWeight rows)).sum - 1| ≤ 1 / 1000000000 := by
  have h1 : ((ridershipKeys rows).map (exposureWeight rows)).sum = 1 := by
    have h2 : ((ridershipKeys rows).map (exposureWeight rows)).sum =
        ((ridershipKeys rows).map (avgDailyRidership rows)).sum /
          totalSystemRidership rows := by
      exact sum_map_div (ridershipKeys rows) (avgDailyRidership rows)
        (totalSystemRidership rows)
    rw [h2]
    exact div_self (ne_of_gt hpos)
  refine ⟨h1, ?_⟩
  rw [h1]
  norm_num

/-- Witness for C2: a two-group batch with positive total ridership. -/
theorem c2_exposure_weights_sum_to_one_witness :
    (0 : ℚ) < totalSystemRidership
      [⟨"Red", "AM_PEAK", "Alewife", 100, 80, 20⟩,
       ⟨"Orange", "AM_PEAK", "Ruggles", 60, 40, 20⟩] ∧
    ((ridershipKeys
      [⟨"Red", "AM_PEAK", "Alewife", 100, 80, 20⟩,
       ⟨"Orange", "AM_PEAK", "Ruggles", 60, 40, 20⟩]).map (exposureWeight
      [⟨"Red", "AM_PEAK", "Alewife", 100, 80, 20⟩,
       ⟨"Orange", "AM_PEAK", "Ruggles", 60, 40, 20⟩])).sum = 1 := by
  have hpos : (0 : ℚ) < totalSystemRidership
      [⟨"Red", "AM_PEAK", "Alewife", 100, 80, 20⟩,
       ⟨"Orange", "AM_PEAK", "Ruggles", 60, 40, 20⟩] := by
    simp [totalSystemRidership, ridershipKeys, ridershipKey, ridershipGroup,
      avgDailyRidership, firstServiceDays, List.dedup]
    norm_num
  exact ⟨hpos, (c2_exposure_weights_sum_to_one _ hpos).1⟩

/-!
## On-time performance
(`src/data_exploration/02_calculate_indicators.py`, section 3)

Per segment `(route_id, direction_id, from_stop_id, to_stop_id)`:
`benchmark_time` is the 0.75 quantile of the segment's `travel_time_sec`;
each trip row is flagged `is_on_time = travel_time_sec <= benchmark_time`
after a left merge of the benchmark back onto the trip table; the group
mean of the flag is `on_time_performance`.
-/

/-- Row of the consolidated travel-times table (columns used in the
indicator script). -/
structure Trip where
  route_id : String
  direction_id : String
  from_stop_id : String
  to_stop_id : String
  travel_time_sec : ℚ
deriving DecidableEq

/-- Group key `(route_id, direction_id, from_stop_id, to_stop_id)`. -/
def segKey (t : Trip) : String × String × String × String :=
  (t.route_id, t.direction_id, t.from_stop_id, t.to_stop_id)

/-- Travel times of one segment, in table order. -/
def segTimes (trips : List Trip) (k : String × String × String × String) :
    List ℚ :=
  (trips.filter (fun t => decide (segKey t = k))).map Trip.travel_time_sec

/-- `segment_benchmarks`: the segment's own 0.75 quantile of travel time. -/
def benchmarkTime (trips : List Trip)
    (k : String × String × String × String) : ℚ :=
  quantileQ (3/4) (segTimes trips k)

/-- `is_on_time` of one merged row: the trip's travel time is at most the
benchmark merged in for its own segment key. -/
def isOnTime (trips : List Trip) (t : Trip) : Bool :=
  decide (t.travel_time_sec ≤ benchmarkTime trips (segKey t))

/-- `otp_by_segment`: group mean of the boolean `is_on_time` column. -/
def otpBySegment (trips : List Trip)
    (k : String × String × String × String) : ℚ :=
  meanQ ((trips.filter (fun t => decide (segKey t = k))).map
    (fun t => if isOnTime trips t then (1:ℚ) else 0))

/-- Sum of a 0/1 indicator over a mapped list counts the filtered values. -/
theorem sum_map_indicator (l : List α) (f : α → ℚ) (p : ℚ → Bool) :
    (l.map (fun t => if p (f t) then (1:ℚ) else 0)).sum =
      (((l.map f).filter p).length : ℚ) := by
  induction l with
  | nil => simp
  | cons x xs ih =>
    cases hp : p (f x) with
    | false => simp [List.filter_cons, hp, ih]
    | true =>
      simp [List.filter_cons, hp, ih]
      ring

/-- C3: for every segment with at least one observation,
`on_time_performance` equals the fraction of the segment's trips whose
travel time is at most the segment's own 75th-percentile benchmark. -/
theorem c3_on_time_performance (trips : List Trip)
    (k : String × String × String × String) (hne : segTimes trips k ≠ []) :
    otpBySegment trips k =
      (((segTimes trips k).filter
          (fun x => decide (x ≤ benchmarkTime trips k))).length : ℚ) /
        ((segTimes trips k).length : ℚ) := by
  have hkey : ∀ t ∈ trips.filter (fun t => decide (segKey t = k)),
      segKey t = k := by
    intro t ht
    exact of_decide_eq_true (List.mem_filter.mp ht).2
  have hmap : (trips.filter (fun t => decide (segKey t = k))).map
      (fun t => if isOnTime trips t then (1:ℚ) else 0) =
      (trips.filter (fun t => decide (segKey t = k))).map
      (fun t => if decide (t.travel_time_sec ≤ benchmarkTime trips k)
        then (1:ℚ) else 0) := by
    apply List.map_congr_left
    intro t ht
    simp only [isOnTime, hkey t ht]
  have hsum : ((trips.filter (fun t => decide (segKey t = k))).map
      (fun t => if decide (t.travel_time_sec ≤ benchmarkTime trips k)
        then (1:ℚ) else 0)).sum =
      (((segTimes trips k).filter
        (fun x => decide (x ≤ benchmarkTime trips k))).length : ℚ) :=
    sum_map_indicator (trips.filter (fun t => decide (segKey t = k)))
      Trip.travel_time_sec (fun x => decide (x ≤ benchmarkTime trips k))
  have hlen : ((trips.filter (fun t => decide (segKey t = k))).map
      (fun t => if isOnTime trips t then (1:ℚ) else 0)).length =
      (segTimes trips k).length := by
    simp [segTimes]
  unfold otpBySegment meanQ
  rw [hmap, hsum]
  rw [hmap] at hlen
  rw [hlen]

/-- Witness for C3 at a one-observation segment: the 0.75 quantile of [5]
is 5, the single trip is on time, and the fraction is 1. -/
theorem c3_on_time_performance_witness :
    otpBySegment [⟨"Red", "0", "A", "B", 5⟩] ("Red", "0", "A", "B") =
      (((segTimes [⟨"Red", "0", "A", "B", 5⟩] ("Red", "0", "A", "B")).filter
          (fun x => decide (x ≤ benchmarkTime [⟨"Red", "0", "A", "B", 5⟩]
            ("Red", "0", "A", "B")))).length : ℚ) /
        ((segTimes [⟨"Red", "0", "A", "B", 5⟩] ("Red", "0", "A", "B")).length : ℚ) :=
  c3_on_time_performance [⟨"Red", "0", "A", "B", 5⟩] ("Red", "0", "A", "B")
    (by decide)

/-!
## Speed restriction indicators
(`src/data_exploration/02_calculate_indicators.py`, section 4)

Dates are modelled as rational day numbers (a `pandas` datetime difference
divided by 86400 seconds is exactly the difference of day numbers).
`Date_Restriction_Cleared` and `Restriction_Speed_MPH` are parsed with
`errors=coerce`, so a missing/invalid entry is NaN — modelled as `none`.
-/

/-- Row of the consolidated speed-restrictions table (columns used in the
indicator script). -/
structure RestrictionRecord where
  line : String
  restriction_id : String
  reported : ℚ
  calendar : ℚ
  cleared : Option ℚ
  speed : Option ℚ
  distance_miles : ℚ
  pct_line_restricted : ℚ
  days_active : ℚ
deriving DecidableEq

/-- `duration_days`: initialised from the
`Restriction_Days_Active_On_Calendar_Day` column, then overwritten for
rows whose `Date_Restriction_Cleared` is NaT with
`(Calendar_Date - Date_Restriction_Reported)` in days. -/
def durationDays (r : RestrictionRecord) : ℚ :=
  match r.cleared with
  | some _ => r.days_active
  | none => r.calendar - r.reported

/-- Rows of one line, in table order (`restrictions.groupby('Line')`). -/
def lineRows (rows : List RestrictionRecord) (l : String) :
    List RestrictionRecord :=
  rows.filter (fun r => decide (r.line = l))

/-- Non-missing `Restriction_Speed_MPH` values of one line. -/
def lineSpeeds (rows : List RestrictionRecord) (l : String) : List ℚ :=
  (lineRows rows l).filterMap RestrictionRecord.speed

/-- `avg_speed_mph`: pandas mean, which skips NaN and is itself NaN when
every value of the group is missing. -/
def avgSpeedMph (rows : List RestrictionRecord) (l : String) : Option ℚ :=
  match lineSpeeds rows l with
  | [] => none
  | s => some (meanQ s)

/-- Series.clip(lo, hi). -/
def clipQ (x lo hi : ℚ) : ℚ := min (max x lo) hi

/-- `severity_index = 1 - (avg_speed_mph.fillna(0) / 50).clip(0, 1)`. -/
def severityIndex (rows : List RestrictionRecord) (l : String) : ℚ :=
  1 - clipQ ((avgSpeedMph rows l).getD 0 / 50) 0 1

/-- `avg_duration_days`: group mean of `duration_days`. -/
def avgDurationDays (rows : List RestrictionRecord) (l : String) : ℚ :=
  meanQ ((lineRows rows l).map durationDays)

/-- `total_restriction_days`: group sum of `duration_days`. -/
def totalRestrictionDays (rows : List RestrictionRecord) (l : String) : ℚ :=
  ((lineRows rows l).map durationDays).sum

/-- C4: `severity_index = 1 − clip(avg_speed_mph / 50, 0, 1)` where
`avg_speed_mph` is the mean of the line's non-missing speeds; a line whose
speeds are all missing gets severity 1; an average of 25 gives 1/2 and an
average of 60 clips to 0. -/
theorem c4_severity_index :
    (∀ (rows : List RestrictionRecord) (l : String) (a : ℚ),
      avgSpeedMph rows l = some a →
      a = meanQ (lineSpeeds rows l) ∧
      severityIndex rows l = 1 - clipQ (a / 50) 0 1) ∧
    (∀ (rows : List RestrictionRecord) (l : String),
      lineSpeeds rows l = [] → severityIndex rows l = 1) ∧
    (∀ (rows : List RestrictionRecord) (l : String),
      avgSpeedMph rows l = some 25 → severityIndex rows l = 1/2) ∧
    (∀ (rows : List RestrictionRecord) (l : String),
      avgSpeedMph rows l = some 60 → severityIndex rows l = 0) := by
  have hform : ∀ (rows : List RestrictionRecord) (l : String) (a : ℚ),
      avgSpeedMph rows l = some a →
      a = meanQ (lineSpeeds rows l) ∧
      severityIndex rows l = 1 - clipQ (a / 50) 0 1 := by
    intro rows l a ha
    have h1 : a = meanQ (lineSpeeds rows l) := by
      unfold avgSpeedMph at ha
      cases hs : lineSpeeds rows l with
      | nil => rw [hs] at ha; cases ha
      | cons x xs =>
        rw [hs] at ha
        simp only [Option.some.injEq] at ha
        exact ha.symm
    refine ⟨h1, ?_⟩
    unfold severityIndex
    rw [ha]
    rfl
  refine ⟨hform, ?_, ?_, ?_⟩
  · intro rows l hs
    unfold severityIndex avgSpeedMph
    rw [hs]
    simp only [Option.getD_none]
    unfold clipQ
    norm_num
  · intro rows l ha
    rw [(hform rows l 25 ha).2]
    unfold clipQ
    rw [max_eq_left (by norm_num), min_eq_left (by norm_num)]
    norm_num
  · intro rows l ha
    rw [(hform rows l 60 ha).2]
    unfold clipQ
    rw [max_eq_left (by norm_num), min_eq_right (by norm_num)]
    norm_num

/-- Witness for C4: lines with speeds [25], [60] and [missing]. -/
theorem c4_severity_index_witness :
    severityIndex
      [⟨"Red", "1", 0, 50, none, some 25, 1, 1, 5⟩,
       ⟨"Blue", "2", 0, 50, none, some 60, 1, 1, 5⟩,
       ⟨"Green", "3", 0, 50, none, none, 1, 1, 5⟩] "Red" = 1/2 ∧
    severityIndex
      [⟨"Red", "1", 0, 50, none, some 25, 1, 1, 5⟩,
       ⟨"Blue", "2", 0, 50, none, some 60, 1, 1, 5⟩,
       ⟨"Green", "3", 0, 50, none, none, 1, 1, 5⟩] "Blue" = 0 ∧
    severityIndex
      [⟨"Red", "1", 0, 50, none, some 25, 1, 1, 5⟩,
       ⟨"Blue", "2", 0, 50, none, some 60, 1, 1, 5⟩,
       ⟨"Green", "3", 0, 50, none, none, 1, 1, 5⟩] "Green" = 1 := by
  refine ⟨c4_severity_index.2.2.1 _ "Red" ?_, c4_severity_index.2.2.2 _ "Blue" ?_,
    c4_severity_index.2.1 _ "Green" ?_⟩
  · show avgSpeedMph _ "Red" = some 25
    simp [avgSpeedMph, lineSpeeds, lineRows, meanQ]
  · show avgSpeedMph _ "Blue" = some 60
    simp [avgSpeedMph, lineSpeeds, lineRows, meanQ]
  · show lineSpeeds _ "Green" = []
    simp [lineSpeeds, lineRows]

/-- C5 counterexample: the claim says a record with a cleared date gets
`duration_days = cleared_date − reported_date`, but the code assigns the
`Restriction_Days_Active_On_Calendar_Day` column to such records and only
recomputes from dates when the cleared date is missing.  A record with
reported day 0, cleared day 10 and a days-active column of 3 gets
`duration_days = 3`, not `10`. -/
theorem c5_counterexample :
    durationDays ⟨"Red", "1", 0, 100, some 10, some 20, 1, 1, 3⟩ = 3 ∧
    (10 : ℚ) - 0 = 10 ∧ (3 : ℚ) ≠ 10 :=
  ⟨rfl, by norm_num, by decide⟩

/-- C5 amended: a record with a cleared date takes `duration_days` from
the record's `Restriction_Days_Active_On_Calendar_Day` column; a record
without one gets `Calendar_Date − Date_Restriction_Reported` in days (the
snapshot date acts as the observation cutoff); per-line
`avg_duration_days` and `total_restriction_days` are the mean and the sum
of the per-record durations. -/
theorem c5_duration_days_amended :
    (∀ (r : RestrictionRecord) (c : ℚ), r.cleared = some c →
      durationDays r = r.days_active) ∧
    (∀ r : RestrictionRecord, r.cleared = none →
      durationDays r = r.calendar - r.reported) ∧
    (∀ (rows : List RestrictionRecord) (l : String),
      avgDurationDays rows l =
        ((lineRows rows l).map durationDays).sum /
          (((lineRows rows l).map durationDays).length : ℚ) ∧
      totalRestrictionDays rows l =
        ((lineRows rows l).map durationDays).sum) := by
  refine ⟨?_, ?_, ?_⟩
  · intro r c hc
    unfold durationDays
    rw [hc]
  · intro r hc
    unfold durationDays
    rw [hc]
  · intro rows l
    exact ⟨rfl, rfl⟩

/-- Witness for C5 amended at one cleared and one uncleared record. -/
theorem c5_duration_days_amended_witness :
    durationDays ⟨"Red", "1", 0, 100, some 10, some 20, 1, 1, 3⟩ =
      RestrictionRecord.days_active ⟨"Red", "1", 0, 100, some 10, some 20, 1, 1, 3⟩ ∧
    durationDays ⟨"Blue", "2", 7, 100, none, some 20, 1, 1, 3⟩ =
      RestrictionRecord.calendar ⟨"Blue", "2", 7, 100, none, some 20, 1, 1, 3⟩ -
      RestrictionRecord.reported ⟨"Blue", "2", 7, 100, none, some 20, 1, 1, 3⟩ :=
  ⟨c5_duration_days_amended.1 _ 10 rfl, c5_duration_days_amended.2.1 _ rfl⟩

/-!
## Derived reliability ratios and division by zero
(`src/data_exploration/02_calculate_indicators.py`, section 2)

The ratio indicators are float column divisions.  IEEE float division by
zero yields ±inf for a nonzero numerator and NaN for 0/0; it never yields
a finite number.  `PVal` models the needed fragment of IEEE arithmetic
over exact rationals.
-/

/-- Extended value: a finite rational, +inf, −inf, or NaN. -/
inductive PVal where
  | fin : ℚ → PVal
  | pinf : PVal
  | ninf : PVal
  | nan : PVal
deriving DecidableEq

/-- IEEE-style subtraction on extended values. -/
def PVal.sub : PVal → PVal → PVal
  | nan, _ => nan
  | _, nan => nan
  | fin a, fin b => fin (a - b)
  | fin _, pinf => ninf
  | fin _, ninf => pinf
  | pinf, fin _ => pinf
  | ninf, fin _ => ninf
  | pinf, pinf => nan
  | pinf, ninf => pinf
  | ninf, pinf => ninf
  | ninf, ninf => nan

/-- IEEE-style division on extended values: a finite numerator over zero
gives +inf, −inf or NaN by the numerator's sign; inf over zero keeps its
sign; inf/inf and anything with NaN give NaN. -/
def PVal.div : PVal → PVal → PVal
  | nan, _ => nan
  | _, nan => nan
  | fin a, fin b =>
      if b = 0 then (if 0 < a then pinf else if a < 0 then ninf else nan)
      else fin (a / b)
  | fin _, pinf => fin 0
  | fin _, ninf => fin 0
  | pinf, fin b => if 0 ≤ b then pinf else ninf
  | ninf, fin b => if 0 ≤ b then ninf else pinf
  | pinf, pinf => nan
  | pinf, ninf => nan
  | ninf, pinf => nan
  | ninf, ninf => nan

/-- Finiteness test: only `fin` values are finite. -/
def PVal.isFinite : PVal → Bool
  | fin _ => true
  | _ => false

/-- One aggregated segment row of `travel_reliability` before the derived
ratio columns; `std_travel_time` is NaN when the group has a single
observation (pandas sample std). -/
structure SegStats where
  n_observations : ℕ
  median_travel_time : PVal
  mean_travel_time : PVal
  std_travel_time : PVal
  p10_travel_time : PVal
  p90_travel_time : PVal

/-- `travel_time_volatility = std_travel_time / median_travel_time`. -/
def travelTimeVolatility (s : SegStats) : PVal :=
  PVal.div s.std_travel_time s.median_travel_time

/-- `buffer_time_index = (p90 − median) / median`. -/
def bufferTimeIndex (s : SegStats) : PVal :=
  PVal.div (PVal.sub s.p90_travel_time s.median_travel_time)
    s.median_travel_time

/-- `planning_time_index = p90 / p10`. -/
def planningTimeIndex (s : SegStats) : PVal :=
  PVal.div s.p90_travel_time s.p10_travel_time

theorem pdiv_fin_zero_not_finite (v : PVal) :
    (PVal.div v (PVal.fin 0)).isFinite = false := by
  cases v with
  | fin a =>
    show (if (0:ℚ) = 0 then (if 0 < a then PVal.pinf else if a < 0
      then PVal.ninf else PVal.nan) else PVal.fin (a / 0)).isFinite = false
    rw [if_pos rfl]
    split_ifs <;> rfl
  | pinf =>
    show (if (0:ℚ) ≤ 0 then PVal.pinf else PVal.ninf).isFinite = false
    rw [if_pos le_rfl]
    rfl
  | ninf =>
    show (if (0:ℚ) ≤ 0 then PVal.ninf else PVal.pinf).isFinite = false
    rw [if_pos le_rfl]
    rfl
  | nan => rfl

theorem not_finite_ne_fin {p : PVal} (h : p.isFinite = false) (q : ℚ) :
    p ≠ PVal.fin q := by
  intro hp
  rw [hp] at h
  cases h

/-- C6: a segment whose median travel time is zero gets NaN-or-infinite
volatility and buffer-time index, and one whose p10 travel time is zero
gets a NaN-or-infinite planning-time index; none of these ratios is ever
a finite value (in particular never 0). -/
theorem c6_zero_median_sentinel (s : SegStats) :
    (s.median_travel_time = PVal.fin 0 →
      (travelTimeVolatility s).isFinite = false ∧
      (∀ q : ℚ, travelTimeVolatility s ≠ PVal.fin q) ∧
      (bufferTimeIndex s).isFinite = false ∧
      (∀ q : ℚ, bufferTimeIndex s ≠ PVal.fin q)) ∧
    (s.p10_travel_time = PVal.fin 0 →
      (planningTimeIndex s).isFinite = false ∧
      ∀ q : ℚ, planningTimeIndex s ≠ PVal.fin q) := by
  constructor
  · intro hm
    have h1 : (travelTimeVolatility s).isFinite = false := by
      unfold travelTimeVolatility
      rw [hm]
      exact pdiv_fin_zero_not_finite _
    have h2 : (bufferTimeIndex s).isFinite = false := by
      unfold bufferTimeIndex
      rw [hm]
      exact pdiv_fin_zero_not_finite _
    exact ⟨h1, fun q => not_finite_ne_fin h1 q, h2,
      fun q => not_finite_ne_fin h2 q⟩
  · intro hp
    have h3 : (planningTimeIndex s).isFinite = false := by
      unfold planningTimeIndex
      rw [hp]
      exact pdiv_fin_zero_not_finite _
    exact ⟨h3, fun q => not_finite_ne_fin h3 q⟩

/-- Witness for C6 at a concrete degenerate segment row. -/
theorem c6_zero_median_sentinel_witness :
    (travelTimeVolatility ⟨1, PVal.fin 0, PVal.fin 0, PVal.nan,
      PVal.fin 0, PVal.fin 5⟩).isFinite = false ∧
    travelTimeVolatility ⟨1, PVal.fin 0, PVal.fin 0, PVal.nan,
      PVal.fin 0, PVal.fin 5⟩ ≠ PVal.fin 0 ∧
    (planningTimeIndex ⟨1, PVal.fin 0, PVal.fin 0, PVal.nan,
      PVal.fin 0, PVal.fin 5⟩).isFinite = false := by
  have h := c6_zero_median_sentinel ⟨1, PVal.fin 0, PVal.fin 0, PVal.nan,
    PVal.fin 0, PVal.fin 5⟩
  exact ⟨(h.1 rfl).1, (h.1 rfl).2.1 0, (h.2 rfl).1⟩

/-!
## Station Stress (CTS) calculator
(`src/dashboard_utils.py`, `CAPACITY_MAP` and `calculate_cts`)

`calculate_cts` filters peak ridership, averages `average_flow` per
(route, stop), maps station ids to names, inner-joins, assigns capacity
via `CAPACITY_MAP` with `fillna(1000)`, and shifts volatility by the
minimum volatility of the whole merged table before multiplying.
-/

/-- Row of `station_scores` as used by `calculate_cts` (the id column, the
route and the volatility actually read). -/
structure ScoreRow where
  from_stop_id : String
  route_id : String
  travel_time_volatility : ℚ
deriving DecidableEq, Inhabited

/-- Row of the ridership sample as used by `calculate_cts`. -/
structure FlowRow where
  route_id : String
  time_period_name : String
  stop_name : String
  average_flow : ℚ
deriving DecidableEq, Inhabited

/-- `CAPACITY_MAP`, the fixed per-route capacity table of
`dashboard_utils.py`. -/
def CAPACITY_MAP : List (String × ℚ) :=
  [("Red", 1300), ("Orange", 1000), ("Blue", 900), ("Green", 300),
   ("Green-B", 300), ("Green-C", 300), ("Green-D", 300), ("Green-E", 300),
   ("Mattapan", 100)]

/-- `merged['route_id'].map(CAPACITY_MAP).fillna(1000)`. -/
def capacityOf (r : String) : ℚ := (CAPACITY_MAP.lookup r).getD 1000

/-- Peak ridership rows: `time_period_name.isin(['AM_PEAK', 'PM_PEAK'])`. -/
def peakRows (rows : List FlowRow) : List FlowRow :=
  rows.filter (fun r =>
    r.time_period_name == "AM_PEAK" || r.time_period_name == "PM_PEAK")

/-- Distinct (route_id, stop_name) keys of the peak-ridership groupby. -/
def flowKeys (rows : List FlowRow) : List (String × String) :=
  ((peakRows rows).map (fun r => (r.route_id, r.stop_name))).dedup

/-- `ridership_agg`: mean of `average_flow` for one (route, stop) group. -/
def avgFlow (rows : List FlowRow) (k : String × String) : ℚ :=
  meanQ (((peakRows rows).filter
    (fun r => decide ((r.route_id, r.stop_name) = k))).map FlowRow.average_flow)

/-- Row of the inner join of named station scores with `ridership_agg`. -/
structure MergedRow where
  route_id : String
  station_name : String
  travel_time_volatility : ℚ
  average_flow : ℚ
deriving DecidableEq, Inhabited

/-- The merged table: map each score row's stop id to a name (dropping
rows with no name), then inner-join with the peak ridership aggregate on
(route_id, station_name). -/
def mergedRows (scores : List ScoreRow) (ridership : List FlowRow)
    (idToName : List (String × String)) : List MergedRow :=
  scores.filterMap (fun s =>
    match idToName.lookup s.from_stop_id with
    | none => none
    | some nm =>
      if (s.route_id, nm) ∈ flowKeys ridership then
        some ⟨s.route_id, nm, s.travel_time_volatility,
          avgFlow ridership (s.route_id, nm)⟩
      else none)

/-- `min_vol = merged['travel_time_volatility'].min()` (None on an empty
table, where pandas would give NaN). -/
def minVol? (rows : List MergedRow) : Option ℚ :=
  match rows.map MergedRow.travel_time_volatility with
  | [] => none
  | v :: vs => some (vs.foldl min v)

/-- `variability_positive`: volatility + abs(min_vol) + 1 when the table
minimum is negative, else volatility + 1 (the NaN comparison of an empty
table is false, giving the else branch). -/
def variabilityPositive (m? : Option ℚ) (v : ℚ) : ℚ :=
  match m? with
  | some m => if m < 0 then v + |m| + 1 else v + 1
  | none => v + 1

/-- Output row of `calculate_cts`. -/
structure CtsRow where
  route_id : String
  station_name : String
  travel_time_volatility : ℚ
  average_flow : ℚ
  capacity : ℚ
  variability_positive : ℚ
  load_factor : ℚ
  CTS : ℚ
deriving DecidableEq, Inhabited

/-- `calculate_cts`: per merged row, capacity lookup with default 1000,
`load_factor = average_flow / capacity`, the volatility shift by the
table-wide minimum, and `CTS = load_factor * variability_positive`. -/
def calculateCts (scores : List ScoreRow) (ridership : List FlowRow)
    (idToName : List (String × String)) : List CtsRow :=
  (mergedRows scores ridership idToName).map (fun p =>
    { route_id := p.route_id,
      station_name := p.station_name,
      travel_time_volatility := p.travel_time_volatility,
      average_flow := p.average_flow,
      capacity := capacityOf p.route_id,
      variability_positive :=
        variabilityPositive (minVol? (mergedRows scores ridership idToName))
          p.travel_time_volatility,
      load_factor := p.average_flow / capacityOf p.route_id,
      CTS := (p.average_flow / capacityOf p.route_id) *
        variabilityPositive (minVol? (mergedRows scores ridership idToName))
          p.travel_time_volatility })

theorem lookup_pos_of_all_pos :
    ∀ (l : List (String × ℚ)), (∀ p ∈ l, 0 < p.2) →
    ∀ (r : String) (v : ℚ), l.lookup r = some v → 0 < v := by
  intro l
  induction l with
  | nil => intro _ r v h; cases h
  | cons p ps ih =>
    intro hall r v h
    rw [List.lookup] at h
    cases hbe : (r == p.1) with
    | true =>
      rw [hbe] at h
      simp only [Option.some.injEq] at h
      rw [← h]
      exact hall p (List.mem_cons_self _ _)
    | false =>
      rw [hbe] at h
      exact ih (fun q hq => hall q (List.mem_cons_of_mem _ hq)) r v h

theorem capacityOf_pos (r : String) : 0 < capacityOf r := by
  unfold capacityOf
  cases hl : CAPACITY_MAP.lookup r with
  | none => norm_num
  | some v =>
    have hv : 0 < v := by
      refine lookup_pos_of_all_pos CAPACITY_MAP ?_ r v hl
      intro p hp
      fin_cases hp <;> norm_num
    exact hv

/-- C10: every joined row of `calculate_cts` carries
`capacity = CAPACITY_MAP[route_id]` with 1000 for unmapped routes; all
capacities (mapped and default) are strictly positive, so the load-factor
division never divides by zero. -/
theorem c10_capacity_lookup_positive :
    (∀ (scores : List ScoreRow) (ridership : List FlowRow)
        (idToName : List (String × String)) (row : CtsRow),
      row ∈ calculateCts scores ridership idToName →
      row.capacity = capacityOf row.route_id ∧ 0 < row.capacity ∧
      row.capacity ≠ 0) ∧
    capacityOf "Red" = 1300 ∧ capacityOf "Orange" = 1000 ∧
    capacityOf "Blue" = 900 ∧ capacityOf "Green" = 300 ∧
    capacityOf "Green-B" = 300 ∧ capacityOf "Green-C" = 300 ∧
    capacityOf "Green-D" = 300 ∧ capacityOf "Green-E" = 300 ∧
    capacityOf "Mattapan" = 100 ∧
    (∀ r : String, CAPACITY_MAP.lookup r = none → capacityOf r = 1000) ∧
    (∀ r : String, 0 < capacityOf r) := by
  refine ⟨?_, rfl, rfl, rfl, rfl, rfl, rfl, rfl, rfl, rfl, ?_, capacityOf_pos⟩
  · intro scores ridership idToName row hrow
    rcases List.mem_map.mp hrow with ⟨p, _, heq⟩
    rw [← heq]
    exact ⟨rfl, capacityOf_pos p.route_id,
      ne_of_gt (capacityOf_pos p.route_id)⟩
  · intro r h
    unfold capacityOf
    rw [h]
    rfl

/-- Distinguished first element of a nonempty list is a member. -/
theorem headD_mem {α : Type} [Inhabited α] {l : List α} (h : l ≠ []) :
    l.headD default ∈ l := by
  cases l with
  | nil => exact absurd rfl h
  | cons x xs => exact List.mem_cons_self x xs

/-- Witness for C10 on a one-station join over route "Red". -/
theorem c10_capacity_lookup_positive_witness :
    calculateCts [⟨"S1", "Red", 1⟩] [⟨"Red", "AM_PEAK", "Alewife", 100⟩]
      [("S1", "Alewife")] ≠ [] ∧
    ((calculateCts [⟨"S1", "Red", 1⟩] [⟨"Red", "AM_PEAK", "Alewife", 100⟩]
      [("S1", "Alewife")]).headD default).capacity =
      capacityOf ((calculateCts [⟨"S1", "Red", 1⟩]
        [⟨"Red", "AM_PEAK", "Alewife", 100⟩]
        [("S1", "Alewife")]).headD default).route_id ∧
    0 < ((calculateCts [⟨"S1", "Red", 1⟩]
      [⟨"Red", "AM_PEAK", "Alewife", 100⟩]
      [("S1", "Alewife")]).headD default).capacity := by
  have hne : calculateCts [⟨"S1", "Red", 1⟩]
      [⟨"Red", "AM_PEAK", "Alewife", 100⟩] [("S1", "Alewife")] ≠ [] := by
    simp [calculateCts, mergedRows, flowKeys, peakRows, List.lookup]
  have h := c10_capacity_lookup_positive.1 _ _ _ _ (headD_mem hne)
  exact ⟨hne, h.1, h.2.1⟩

theorem minVol?_le {rows : List MergedRow} {m : ℚ}
    (h : minVol? rows = some m) {p : MergedRow} (hp : p ∈ rows) :
    m ≤ p.travel_time_volatility := by
  unfold minVol? at h
  cases hv : rows.map MergedRow.travel_time_volatility with
  | nil =>
    rw [hv] at h
    cases h
  | cons v vs =>
    rw [hv] at h
    simp only [Option.some.injEq] at h
    have hmem : p.travel_time_volatility ∈ v :: vs := by
      rw [← hv]
      exact List.mem_map_of_mem _ hp
    rw [← h]
    rcases List.mem_cons.mp hmem with h1 | h1
    · rw [h1]
      exact foldl_min_le_init vs _
    · exact foldl_min_le_mem vs v _ h1

/-- C7 counterexample input: two routes joined in one CTS table. Route
"RouteA" has volatility −1, route "RouteB" has volatility 2. -/
def cexScores : List ScoreRow :=
  [⟨"A1", "RouteA", -1⟩, ⟨"B1", "RouteB", 2⟩]

/-- C7 counterexample ridership: one peak flow row per station. -/
def cexFlows : List FlowRow :=
  [⟨"RouteA", "AM_PEAK", "StA", 120⟩, ⟨"RouteB", "AM_PEAK", "StB", 60⟩]

/-- C7 counterexample id-to-name mapping. -/
def cexNames : List (String × String) := [("A1", "StA"), ("B1", "StB")]

/-- C7 counterexample: the code shifts volatility by the minimum over the
WHOLE merged table, not per route.  Route "RouteB"'s own minimum
volatility is 2 (not negative), so the claim's per-route rule demands
`variability_shifted = 2 + 1 = 3`; the code produces `2 + |−1| + 1 = 4`
because route "RouteA"'s volatility −1 is the table minimum. -/
theorem c7_counterexample :
    (calculateCts cexScores cexFlows cexNames).map
      CtsRow.variability_positive = [1, 4] ∧
    ((calculateCts cexScores cexFlows cexNames).filter
      (fun r => r.route_id == "RouteB")).map
      CtsRow.travel_time_volatility = [2] ∧
    ¬ ((2:ℚ) < 0) ∧ (4:ℚ) ≠ 2 + 1 := by
  have hmin : minVol? (mergedRows cexScores cexFlows cexNames) = some (-1) := by
    simp [minVol?, mergedRows, cexScores, cexFlows, cexNames, flowKeys,
      peakRows, List.lookup]
    norm_num
  refine ⟨?_, ?_, by norm_num, by norm_num⟩
  · unfold calculateCts
    rw [hmin]
    simp [mergedRows, cexScores, cexFlows, cexNames, flowKeys, peakRows,
      List.lookup, variabilityPositive, abs_neg, abs_one]
    norm_num
  · unfold calculateCts
    rw [hmin]
    simp [mergedRows, cexScores, cexFlows, cexNames, flowKeys, peakRows,
      List.lookup, variabilityPositive, List.filter]

/-- C7 amended: for every row of `calculate_cts`,
`CTS = load_factor * variability_positive` with
`load_factor = average_flow / capacity`, where the volatility shift uses
the minimum volatility across the WHOLE merged table (not per route):
`variability_positive = volatility + |table min| + 1` when that minimum is
negative and `volatility + 1` otherwise; the shifted multiplier is always
strictly positive.  The spec's numeric example holds:
1.2 · 1.3 = 1.56. -/
theorem c7_cts_amended :
    (∀ (scores : List ScoreRow) (ridership : List FlowRow)
        (idToName : List (String × String)) (row : CtsRow),
      row ∈ calculateCts scores ridership idToName →
      row.CTS = row.load_factor * row.variability_positive ∧
      row.load_factor = row.average_flow / row.capacity ∧
      row.variability_positive =
        variabilityPositive (minVol? (mergedRows scores ridership idToName))
          row.travel_time_volatility ∧
      0 < row.variability_positive) ∧
    (12/10 : ℚ) * (13/10) = 156/100 := by
  constructor
  · intro scores ridership idToName row hrow
    rcases List.mem_map.mp hrow with ⟨p, hp, heq⟩
    have hvp : 0 < variabilityPositive
        (minVol? (mergedRows scores ridership idToName))
        p.travel_time_volatility := by
      cases hm : minVol? (mergedRows scores ridership idToName) with
      | none =>
        unfold variabilityPositive
        have hmap : (mergedRows scores ridership idToName).map
            MergedRow.travel_time_volatility = [] := by
          unfold minVol? at hm
          cases hv : (mergedRows scores ridership idToName).map
              MergedRow.travel_time_volatility with
          | nil => rfl
          | cons v vs => rw [hv] at hm; cases hm
        have : p.travel_time_volatility ∈
            (mergedRows scores ridership idToName).map
              MergedRow.travel_time_volatility :=
          List.mem_map_of_mem _ hp
        rw [hmap] at this
        cases this
      | some m =>
        have hle : m ≤ p.travel_time_volatility := minVol?_le hm hp
        have heval : variabilityPositive (some m) p.travel_time_volatility =
            if m < 0 then p.travel_time_volatility + |m| + 1
            else p.travel_time_volatility + 1 := rfl
        rw [heval]
        by_cases hneg : m < 0
        · rw [if_pos hneg]
          have habs : |m| = -m := abs_of_neg hneg
          rw [habs]
          linarith
        · rw [if_neg hneg]
          push_neg at hneg
          linarith
    rw [← heq]
    exact ⟨rfl, rfl, rfl, hvp⟩
  · norm_num

/-- Witness for C7 amended on a one-row CTS table. -/
theorem c7_cts_amended_witness :
    calculateCts [⟨"S2", "Orange", 3⟩] [⟨"Orange", "PM_PEAK", "Ruggles", 50⟩]
      [("S2", "Ruggles")] ≠ [] ∧
    ((calculateCts [⟨"S2", "Orange", 3⟩]
      [⟨"Orange", "PM_PEAK", "Ruggles", 50⟩]
      [("S2", "Ruggles")]).headD default).CTS =
      ((calculateCts [⟨"S2", "Orange", 3⟩]
        [⟨"Orange", "PM_PEAK", "Ruggles", 50⟩]
        [("S2", "Ruggles")]).headD default).load_factor *
      ((calculateCts [⟨"S2", "Orange", 3⟩]
        [⟨"Orange", "PM_PEAK", "Ruggles", 50⟩]
        [("S2", "Ruggles")]).headD default).variability_positive ∧
    0 < ((calculateCts [⟨"S2", "Orange", 3⟩]
      [⟨"Orange", "PM_PEAK", "Ruggles", 50⟩]
      [("S2", "Ruggles")]).headD default).variability_positive := by
  have hne : calculateCts [⟨"S2", "Orange", 3⟩]
      [⟨"Orange", "PM_PEAK", "Ruggles", 50⟩] [("S2", "Ruggles")] ≠ [] := by
    simp [calculateCts, mergedRows, flowKeys, peakRows, List.lookup]
  have h := c7_cts_amended.1 _ _ _ _ (headD_mem hne)
  exact ⟨hne, h.1, h.2.2.2⟩

/-!
## Station Name Resolver
(`src/pages/3_Equity_Analysis.py`, the `name_mapping` loop)

For each survey name: exact match, else first case-insensitive match,
else `difflib.get_close_matches(s_name, rss_names, n=1, cutoff=0.8)`.
`difflib` scores a candidate x against the word w with
`ratio = 2·M/(len(x)+len(w))`, where M totals the greedy decomposition
into longest matching blocks (earliest-in-x, then earliest-in-w on ties);
`get_close_matches` keeps scored candidates as `(ratio, x)` *tuples* and
takes the tuple maximum, so similarity ties are broken toward the
lexically larger candidate string.  Strings are compared by code points,
as Python does; `Char.toLower` models `str.lower` on the ASCII names in
the data.
-/

set_option maxRecDepth 8000

/-- Length of the common prefix of two character lists. -/
def commonPrefixLen : List Char → List Char → ℕ
  | a :: as, b :: bs => if a = b then commonPrefixLen as bs + 1 else 0
  | _, _ => 0

/-- All index pairs (i, j) with i < m, j < n, in lexicographic order —
the scan order of `SequenceMatcher.find_longest_match`. -/
def lexPairs (m n : ℕ) : List (ℕ × ℕ) :=
  (List.range m).flatMap (fun i => (List.range n).map (fun j => (i, j)))

/-- Longest matching block of two character lists, as
`find_longest_match` with an empty junk set: the maximal common run, the
first one in (start-in-a, start-in-b) lexicographic order on ties. -/
def longestMatch (a b : List Char) : ℕ × ℕ × ℕ :=
  (lexPairs a.length b.length).foldl
    (fun best ij =>
      let k := commonPrefixLen (a.drop ij.1) (b.drop ij.2)
      if best.2.2 < k then (ij.1, ij.2, k) else best)
    (0, 0, 0)

/-- Total size of all matching blocks (`get_matching_blocks` recursion),
with a fuel argument; each recursive call strictly shrinks `a`, so fuel
`|a| + |b| + 1` always suffices. -/
def matchTotalF : ℕ → List Char → List Char → ℕ
  | 0, _, _ => 0
  | fuel + 1, a, b =>
    let t := longestMatch a b
    if t.2.2 = 0 then 0
    else matchTotalF fuel (a.take t.1) (b.take t.2.1) + t.2.2 +
      matchTotalF fuel (a.drop (t.1 + t.2.2)) (b.drop (t.2.1 + t.2.2))

/-- Total matched characters between two character lists. -/
def matchTotal (a b : List Char) : ℕ := matchTotalF (a.length + b.length + 1) a b

/-- Python `str.lower` on the ASCII station names. -/
def strLower (s : String) : String := String.mk (s.data.map Char.toLower)

/-- `SequenceMatcher(None, x, w).ratio() = 2·M / (len(x) + len(w))`
(1.0 for two empty strings). -/
def similarity (x w : String) : ℚ :=
  if x.data.length + w.data.length = 0 then 1
  else 2 * (matchTotal x.data w.data : ℚ) /
    ((x.data.length + w.data.length : ℕ) : ℚ)

/-- Python string `<`: code-point lexicographic order. -/
def strLtB : List Char → List Char → Bool
  | [], [] => false
  | [], _ :: _ => true
  | _ :: _, [] => false
  | a :: as, b :: bs =>
      if a < b then true else if b < a then false else strLtB as bs

/-- Maximum of two `(ratio, name)` tuples under Python tuple comparison,
keeping the first on full ties — the comparison `heapq.nlargest` applies
inside `get_close_matches`. -/
def pickBetter (p q : ℚ × String) : ℚ × String :=
  if p.1 < q.1 ∨ (p.1 = q.1 ∧ strLtB p.2.data q.2.data = true) then q else p

/-- `get_close_matches(w, cands, n=1, cutoff=0.8)` reduced to its result:
score every candidate, keep those with ratio ≥ 0.8, return the
`(ratio, name)`-maximal one. -/
def fuzzyBest (w : String) (cands : List String) : Option String :=
  match cands.filterMap (fun c =>
      if 4/5 ≤ similarity c w then some (similarity c w, c) else none) with
  | [] => none
  | x :: xs => some ((xs.foldl pickBetter x).2)

/-- One iteration of the `name_mapping` loop: exact match, else the first
case-insensitive match, else the best fuzzy match above the 0.8 cutoff. -/
def resolveName (s : String) (cands : List String) : Option String :=
  if s ∈ cands then some s
  else
    match cands.filter (fun r => strLower r == strLower s) with
    | m :: _ => some m
    | [] => fuzzyBest s cands

/-- The `name_mapping` dict as an association list over the survey
names. -/
def nameMapping (surveyNames cands : List String) : List (String × String) :=
  surveyNames.filterMap (fun s => (resolveName s cands).map (fun r => (s, r)))

/-- The `unmatched` report: survey names with no mapping entry. -/
def unmatchedNames (surveyNames cands : List String) : List String :=
  surveyNames.filter (fun s => (resolveName s cands).isNone)

/-- C8: the resolver tries exact, then case-insensitive, then fuzzy
matching: a name occurring in the candidate set maps to itself; a name
absent from the candidates whose unique case-insensitive counterpart is
`r` maps to `r`; a name with no exact or case-insensitive counterpart and
no candidate of similarity ≥ 0.8 is absent from the mapping and appears
in the unmatched report. -/
theorem c8_name_resolver :
    (∀ (s : String) (cands : List String), s ∈ cands →
      resolveName s cands = some s) ∧
    (∀ (s r : String) (cands : List String), s ∉ cands →
      cands.filter (fun c => strLower c == strLower s) = [r] →
      resolveName s cands = some r) ∧
    (∀ (s : String) (cands names : List String), s ∉ cands →
      cands.filter (fun c => strLower c == strLower s) = [] →
      (∀ c ∈ cands, similarity c s < 4/5) →
      resolveName s cands = none ∧
      (∀ r : String, (s, r) ∉ nameMapping names cands) ∧
      (s ∈ names → s ∈ unmatchedNames names cands)) := by
  refine ⟨?_, ?_, ?_⟩
  · intro s cands h
    unfold resolveName
    rw [if_pos h]
  · intro s r cands hs hfilt
    unfold resolveName
    rw [if_neg hs, hfilt]
  · intro s cands names hs hfilt hsim
    have hnone : resolveName s cands = none := by
      unfold resolveName
      rw [if_neg hs, hfilt]
      unfold fuzzyBest
      have hscored : cands.filterMap (fun c =>
          if 4/5 ≤ similarity c s then some (similarity c s, c) else none) =
          [] := by
        apply List.filterMap_eq_nil_iff.mpr
        intro c hc
        rw [if_neg (not_le.mpr (hsim c hc))]
      rw [hscored]
    refine ⟨hnone, ?_, ?_⟩
    · intro r hmem
      rcases List.mem_filterMap.mp hmem with ⟨a, _, hfa⟩
      rcases Option.map_eq_some'.mp hfa with ⟨y, hy, hpair⟩
      have has : a = s := congrArg Prod.fst hpair
      rw [has, hnone] at hy
      cases hy
    · intro hnames
      refine List.mem_filter.mpr ⟨hnames, ?_⟩
      rw [hnone]
      rfl

/-- Evaluation rule for `similarity` from a computed match total and
length sum. -/
theorem similarity_eval (x w : String) (m t : ℕ)
    (hm : matchTotal x.data w.data = m)
    (ht : x.data.length + w.data.length = t) (h0 : t ≠ 0) :
    similarity x w = 2 * (m : ℚ) / (t : ℚ) := by
  unfold similarity
  rw [hm, ht, if_neg h0]

/-- Witness for C8: a self-match, a case-insensitive match, and an
unmatched name (similarity("Davis", "Zebra") = 1/5 < 0.8). -/
theorem c8_name_resolver_witness :
    resolveName "Alewife" ["Alewife", "Davis"] = some "Alewife" ∧
    resolveName "DAVIS" ["Alewife", "Davis"] = some "Davis" ∧
    resolveName "Zebra" ["Davis"] = none ∧
    "Zebra" ∈ unmatchedNames ["Zebra"] ["Davis"] := by
  have hsim : ∀ c ∈ ["Davis"], similarity c "Zebra" < 4/5 := by
    intro c hc
    have hc2 : c = "Davis" := by simpa using hc
    subst hc2
    have he : similarity "Davis" "Zebra" = 2 * (1 : ℚ) / 10 :=
      similarity_eval _ _ 1 10 (by decide) (by decide) (by norm_num)
    rw [he]
    norm_num
  have h3 := c8_name_resolver.2.2 "Zebra" ["Davis"] ["Zebra"]
    (by decide) (by decide) hsim
  exact ⟨c8_name_resolver.1 "Alewife" _ (by decide),
    c8_name_resolver.2.1 "DAVIS" "Davis" _ (by decide) (by decide),
    h3.1, h3.2.2 (by decide)⟩

/-- C9 counterexample: "abcdX" and "abcdY" both have similarity exactly
4/5 to "abcde", and "abcdX" is lexically smaller; the resolver returns
"abcdY" — ties are broken toward the lexically larger `(ratio, name)`
tuple, not the smallest candidate as claimed. -/
theorem c9_counterexample :
    similarity "abcdX" "abcde" = 4/5 ∧
    similarity "abcdY" "abcde" = 4/5 ∧
    strLtB "abcdX".data "abcdY".data = true ∧
    resolveName "abcde" ["abcdX", "abcdY"] = some "abcdY" ∧
    resolveName "abcde" ["abcdX", "abcdY"] ≠ some "abcdX" := by
  have hsX : similarity "abcdX" "abcde" = 4/5 := by
    have he : similarity "abcdX" "abcde" = 2 * (4 : ℚ) / 10 :=
      similarity_eval _ _ 4 10 (by decide) (by decide) (by norm_num)
    rw [he]
    norm_num
  have hsY : similarity "abcdY" "abcde" = 4/5 := by
    have he : similarity "abcdY" "abcde" = 2 * (4 : ℚ) / 10 :=
      similarity_eval _ _ 4 10 (by decide) (by decide) (by norm_num)
    rw [he]
    norm_num
  have hres : resolveName "abcde" ["abcdX", "abcdY"] = some "abcdY" := by
    unfold resolveName
    rw [if_neg (by decide : ¬ ("abcde" ∈ ["abcdX", "abcdY"]))]
    have hfilt : (["abcdX", "abcdY"].filter
        (fun r => strLower r == strLower "abcde")) = [] := by decide
    rw [hfilt]
    unfold fuzzyBest
    have hfm : (["abcdX", "abcdY"].filterMap (fun c =>
        if 4/5 ≤ similarity c "abcde"
        then some (similarity c "abcde", c) else none)) =
        [(4/5, "abcdX"), (4/5, "abcdY")] := by
      rw [List.filterMap_cons, List.filterMap_cons, List.filterMap_nil]
      rw [hsX, hsY]
      norm_num
    rw [hfm]
    show some (([((4:ℚ)/5, "abcdY")].foldl pickBetter ((4:ℚ)/5, "abcdX")).2) =
      some "abcdY"
    have hfold : [((4:ℚ)/5, "abcdY")].foldl pickBetter ((4:ℚ)/5, "abcdX") =
        ((4:ℚ)/5, "abcdY") := by
      show pickBetter ((4:ℚ)/5, "abcdX") ((4:ℚ)/5, "abcdY") = ((4:ℚ)/5, "abcdY")
      unfold pickBetter
      rw [if_pos (Or.inr ⟨rfl, by decide⟩)]
    rw [hfold]
  refine ⟨hsX, hsY, by decide, hres, ?_⟩
  rw [hres]
  decide

theorem strLtB_trans : ∀ (u v w : List Char), strLtB u v = true →
    strLtB v w = true → strLtB u w = true := by
  intro u
  induction u with
  | nil =>
    intro v w h1 h2
    cases v with
    | nil => cases h1
    | cons b bs =>
      cases w with
      | nil => cases h2
      | cons c cs => rfl
  | cons a as ih =>
    intro v w h1 h2
    cases v with
    | nil => cases h1
    | cons b bs =>
      cases w with
      | nil => cases h2
      | cons c cs =>
        by_cases hab : a < b
        · by_cases hbc : b < c
          · show (if a < c then true else if c < a then false
              else strLtB as cs) = true
            rw [if_pos (lt_trans hab hbc)]
          · by_cases hcb : c < b
            · exfalso
              have he2 : strLtB (b :: bs) (c :: cs) = false := by
                show (if b < c then true else if c < b then false
                  else strLtB bs cs) = false
                rw [if_neg hbc, if_pos hcb]
              rw [he2] at h2
              cases h2
            · have heq : b = c := le_antisymm (not_lt.mp hcb) (not_lt.mp hbc)
              subst heq
              show (if a < b then true else if b < a then false
                else strLtB as cs) = true
              rw [if_pos hab]
        · by_cases hba : b < a
          · exfalso
            have he1 : strLtB (a :: as) (b :: bs) = false := by
              show (if a < b then true else if b < a then false
                else strLtB as bs) = false
              rw [if_neg hab, if_pos hba]
            rw [he1] at h1
            cases h1
          · have heq : a = b := le_antisymm (not_lt.mp hba) (not_lt.mp hab)
            subst heq
            have h1r : strLtB as bs = true := by
              have he : strLtB (a :: as) (a :: bs) = strLtB as bs := by
                show (if a < a then true else if a < a then false
                  else strLtB as bs) = strLtB as bs
                rw [if_neg (lt_irrefl a), if_neg (lt_irrefl a)]
              rw [he] at h1
              exact h1
            by_cases hac : a < c
            · show (if a < c then true else if c < a then false
                else strLtB as cs) = true
              rw [if_pos hac]
            · by_cases hca : c < a
              · exfalso
                have he2 : strLtB (a :: bs) (c :: cs) = false := by
                  show (if a < c then true else if c < a then false
                    else strLtB bs cs) = false
                  rw [if_neg hac, if_pos hca]
                rw [he2] at h2
                cases h2
              · have heq2 : a = c := le_antisymm (not_lt.mp hca) (not_lt.mp hac)
                subst heq2
                have h2r : strLtB bs cs = true := by
                  have he : strLtB (a :: bs) (a :: cs) = strLtB bs cs := by
                    show (if a < a then true else if a < a then false
                      else strLtB bs cs) = strLtB bs cs
                    rw [if_neg (lt_irrefl a), if_neg (lt_irrefl a)]
                  rw [he] at h2
                  exact h2
                show (if a < a then true else if a < a then false
                  else strLtB as cs) = true
                rw [if_neg (lt_irrefl a), if_neg (lt_irrefl a)]
                exact ih bs cs h1r h2r

theorem strLtB_total : ∀ (u v : List Char),
    u = v ∨ strLtB u v = true ∨ strLtB v u = true := by
  intro u
  induction u with
  | nil =>
    intro v
    cases v with
    | nil => exact Or.inl rfl
    | cons b bs => exact Or.inr (Or.inl rfl)
  | cons a as ih =>
    intro v
    cases v with
    | nil => exact Or.inr (Or.inr rfl)
    | cons b bs =>
      rcases lt_trichotomy a b with h | h | h
      · refine Or.inr (Or.inl ?_)
        show (if a < b then true else if b < a then false else strLtB as bs) = true
        rw [if_pos h]
      · subst h
        rcases ih bs with h2 | h2 | h2
        · exact Or.inl (by rw [h2])
        · refine Or.inr (Or.inl ?_)
          show (if a < a then true else if a < a then false
            else strLtB as bs) = true
          rw [if_neg (lt_irrefl a), if_neg (lt_irrefl a)]
          exact h2
        · refine Or.inr (Or.inr ?_)
          show (if a < a then true else if a < a then false
            else strLtB bs as) = true
          rw [if_neg (lt_irrefl a), if_neg (lt_irrefl a)]
          exact h2
      · refine Or.inr (Or.inr ?_)
        show (if b < a then true else if a < b then false else strLtB bs as) = true
        rw [if_pos h]

/-- Python tuple order `(ratio, name) <= (ratio, name)`: strictly smaller
ratio, or equal ratio and a name that is equal or lexically smaller. -/
def simTupLe (p q : ℚ × String) : Prop :=
  p.1 < q.1 ∨ (p.1 = q.1 ∧ (p.2 = q.2 ∨ strLtB p.2.data q.2.data = true))

theorem simTupLe_refl (p : ℚ × String) : simTupLe p p :=
  Or.inr ⟨rfl, Or.inl rfl⟩

theorem simTupLe_trans {p q r : ℚ × String} (h1 : simTupLe p q)
    (h2 : simTupLe q r) : simTupLe p r := by
  rcases h1 with h1 | ⟨he1, hs1⟩
  · rcases h2 with h2 | ⟨he2, _⟩
    · exact Or.inl (lt_trans h1 h2)
    · exact Or.inl (by rw [← he2]; exact h1)
  · rcases h2 with h2 | ⟨he2, hs2⟩
    · exact Or.inl (by rw [he1]; exact h2)
    · refine Or.inr ⟨he1.trans he2, ?_⟩
      rcases hs1 with hq1 | hl1
      · rcases hs2 with hq2 | hl2
        · exact Or.inl (hq1.trans hq2)
        · exact Or.inr (by rw [hq1]; exact hl2)
      · rcases hs2 with hq2 | hl2
        · exact Or.inr (by rw [← hq2]; exact hl1)
        · exact Or.inr (strLtB_trans _ _ _ hl1 hl2)

theorem pickBetter_cases (p q : ℚ × String) :
    pickBetter p q = p ∨ pickBetter p q = q := by
  unfold pickBetter
  split_ifs
  · exact Or.inr rfl
  · exact Or.inl rfl

theorem le_pickBetter_left (p q : ℚ × String) : simTupLe p (pickBetter p q) := by
  unfold pickBetter
  split_ifs with h
  · rcases h with h | ⟨he, hs⟩
    · exact Or.inl h
    · exact Or.inr ⟨he, Or.inr hs⟩
  · exact simTupLe_refl p

theorem le_pickBetter_right (p q : ℚ × String) : simTupLe q (pickBetter p q) := by
  unfold pickBetter
  split_ifs with h
  · exact simTupLe_refl q
  · push_neg at h
    obtain ⟨h1, h2⟩ := h
    rcases lt_trichotomy q.1 p.1 with hlt | heq | hgt
    · exact Or.inl hlt
    · refine Or.inr ⟨heq, ?_⟩
      have hne := h2 heq.symm
      rcases strLtB_total q.2.data p.2.data with hs | hs | hs
      · exact Or.inl (String.ext hs)
      · exact Or.inr hs
      · exact absurd hs hne
    · exact absurd hgt (not_lt.mpr h1)

theorem foldl_pickBetter_spec (xs : List (ℚ × String)) :
    ∀ x : ℚ × String, xs.foldl pickBetter x ∈ x :: xs ∧
      simTupLe x (xs.foldl pickBetter x) ∧
      ∀ p ∈ xs, simTupLe p (xs.foldl pickBetter x) := by
  induction xs with
  | nil =>
    intro x
    refine ⟨List.mem_cons_self _ _, simTupLe_refl x, ?_⟩
    intro p hp
    cases hp
  | cons y ys ih =>
    intro x
    have hstep : (y :: ys).foldl pickBetter x =
        ys.foldl pickBetter (pickBetter x y) := rfl
    obtain ⟨hmem, hxle, hall⟩ := ih (pickBetter x y)
    rw [hstep]
    refine ⟨?_, ?_, ?_⟩
    · rcases List.mem_cons.mp hmem with h | h
      · rcases pickBetter_cases x y with hc | hc
        · rw [h, hc]
          exact List.mem_cons_self _ _
        · rw [h, hc]
          exact List.mem_cons_of_mem _ (List.mem_cons_self _ _)
      · exact List.mem_cons_of_mem _ (List.mem_cons_of_mem _ h)
    · exact simTupLe_trans (le_pickBetter_left x y) hxle
    · intro p hp
      rcases List.mem_cons.mp hp with h | h
      · rw [h]
        exact simTupLe_trans (le_pickBetter_right x y) hxle
      · exact hall p h

/-- C9 amended: the resolver is a pure function of its two input name
lists (identical inputs give the identical mapping by construction), and
the fuzzy stage returns a candidate that is maximal among all candidates
above the 0.8 cutoff in the `(ratio, name)` tuple order — on similarity
ties the lexically LARGEST tied candidate wins, not the smallest. -/
theorem c9_fuzzy_tie_break_amended :
    ∀ (w : String) (cands : List String) (r : String),
      fuzzyBest w cands = some r →
      r ∈ cands ∧ 4/5 ≤ similarity r w ∧
      ∀ c ∈ cands, 4/5 ≤ similarity c w →
        simTupLe (similarity c w, c) (similarity r w, r) := by
  intro w cands r h
  unfold fuzzyBest at h
  have hmemchar : ∀ p : ℚ × String, p ∈ cands.filterMap (fun c =>
      if 4/5 ≤ similarity c w then some (similarity c w, c) else none) →
      p.2 ∈ cands ∧ p.1 = similarity p.2 w ∧ 4/5 ≤ similarity p.2 w := by
    intro p hp
    rcases List.mem_filterMap.mp hp with ⟨c, hc, hfc⟩
    by_cases hle : 4/5 ≤ similarity c w
    · rw [if_pos hle] at hfc
      have hpc : (similarity c w, c) = p := by injection hfc
      rw [← hpc]
      exact ⟨hc, rfl, hle⟩
    · rw [if_neg hle] at hfc
      cases hfc
  have hmem2 : ∀ c ∈ cands, 4/5 ≤ similarity c w →
      (similarity c w, c) ∈ cands.filterMap (fun c =>
        if 4/5 ≤ similarity c w then some (similarity c w, c) else none) := by
    intro c hc hle
    exact List.mem_filterMap.mpr ⟨c, hc, by rw [if_pos hle]⟩
  cases hsc : cands.filterMap (fun c =>
      if 4/5 ≤ similarity c w then some (similarity c w, c) else none) with
  | nil =>
    rw [hsc] at h
    cases h
  | cons x xs =>
    rw [hsc] at h
    have hr : (xs.foldl pickBetter x).2 = r := by injection h
    obtain ⟨hmem, hxle, hall⟩ := foldl_pickBetter_spec xs x
    have hfold_mem : xs.foldl pickBetter x ∈ cands.filterMap (fun c =>
        if 4/5 ≤ similarity c w then some (similarity c w, c) else none) := by
      rw [hsc]
      exact hmem
    obtain ⟨hrc, hfst, hrle⟩ := hmemchar _ hfold_mem
    rw [hr] at hrc hfst hrle
    have hfold_eq : xs.foldl pickBetter x = (similarity r w, r) := by
      have hp : xs.foldl pickBetter x =
          ((xs.foldl pickBetter x).1, (xs.foldl pickBetter x).2) := rfl
      rw [hp, hfst, hr]
    refine ⟨hrc, hrle, ?_⟩
    intro c hc hle
    have hin := hmem2 c hc hle
    rw [hsc] at hin
    rcases List.mem_cons.mp hin with he | hin2
    · rw [he, ← hfold_eq]
      exact hxle
    · rw [← hfold_eq]
      exact hall _ hin2

/-- Witness for C9 amended: "stonA" and "stonB" both score 4/5 against
"stone"; the fuzzy stage returns "stonB", which dominates "stonA" in the
tuple order. -/
theorem c9_fuzzy_tie_break_amended_witness :
    "stonB" ∈ ["stonA", "stonB"] ∧ 4/5 ≤ similarity "stonB" "stone" ∧
    simTupLe (similarity "stonA" "stone", "stonA")
      (similarity "stonB" "stone", "stonB") := by
  have hsA : similarity "stonA" "stone" = 4/5 := by
    have he : similarity "stonA" "stone" = 2 * (4 : ℚ) / 10 :=
      similarity_eval _ _ 4 10 (by decide) (by decide) (by norm_num)
    rw [he]
    norm_num
  have hsB : similarity "stonB" "stone" = 4/5 := by
    have he : similarity "stonB" "stone" = 2 * (4 : ℚ) / 10 :=
      similarity_eval _ _ 4 10 (by decide) (by decide) (by norm_num)
    rw [he]
    norm_num
  have hfb : fuzzyBest "stone" ["stonA", "stonB"] = some "stonB" := by
    unfold fuzzyBest
    have hfm : (["stonA", "stonB"].filterMap (fun c =>
        if 4/5 ≤ similarity c "stone"
        then some (similarity c "stone", c) else none)) =
        [(4/5, "stonA"), (4/5, "stonB")] := by
      rw [List.filterMap_cons, List.filterMap_cons, List.filterMap_nil]
      rw [hsA, hsB]
      norm_num
    rw [hfm]
    show some (([((4:ℚ)/5, "stonB")].foldl pickBetter ((4:ℚ)/5, "stonA")).2) =
      some "stonB"
    have hfold : [((4:ℚ)/5, "stonB")].foldl pickBetter ((4:ℚ)/5, "stonA") =
        ((4:ℚ)/5, "stonB") := by
      show pickBetter ((4:ℚ)/5, "stonA") ((4:ℚ)/5, "stonB") = ((4:ℚ)/5, "stonB")
      unfold pickBetter
      rw [if_pos (Or.inr ⟨rfl, by decide⟩)]
    rw [hfold]
  have h := c9_fuzzy_tie_break_amended "stone" ["stonA", "stonB"] "stonB" hfb
  exact ⟨h.1, h.2.1, h.2.2 "stonA" (by decide) (by rw [hsA])⟩
